import Mathlib

/-!
Verification of the natural-language specification of sgh_dd
(src/testing/sgh_dd.cpp) against a shallow embedding of its core
functions: CDB construction, pack-id allocation, the write-ordering
gate, split writes, short-read accounting, the deferred MRQ array,
the chkaddr pattern generator and checker, and exit-status handling.
-/

set_option maxRecDepth 4000

namespace SghDd

/- ------------------------------------------------------------------ -/
/- Byte-order helpers.                                                 -/
/- ------------------------------------------------------------------ -/

/-- Modelled from the spec: `sg_put_unaligned_be24` (include/sg_unaligned.h is
not under src/) stores the low 24 bits of `v` big-endian in three consecutive
bytes.  Each byte is given arithmetically: byte i holds bits 16-8i..23-8i. -/
def be24_bytes (v : Nat) : List Nat :=
  [v / 2 ^ 16 % 256, v / 2 ^ 8 % 256, v % 256]

/-- Modelled from the spec: `sg_put_unaligned_be32` (include/sg_unaligned.h is
not under src/) stores the 32-bit value `v` big-endian in four consecutive
bytes. -/
def be32_bytes (v : Nat) : List Nat :=
  [v / 2 ^ 24 % 256, v / 2 ^ 16 % 256, v / 2 ^ 8 % 256, v % 256]

/-- Modelled from the spec: `sg_put_unaligned_be16`. -/
def be16_bytes (v : Nat) : List Nat :=
  [v / 2 ^ 8 % 256, v % 256]

/-- Modelled from the spec: `sg_put_unaligned_be64`. -/
def be64_bytes (v : Nat) : List Nat :=
  [v / 2 ^ 56 % 256, v / 2 ^ 48 % 256, v / 2 ^ 40 % 256, v / 2 ^ 32 % 256,
   v / 2 ^ 24 % 256, v / 2 ^ 16 % 256, v / 2 ^ 8 % 256, v % 256]

/- ------------------------------------------------------------------ -/
/- sg_build_scsi_cdb (src/testing/sgh_dd.cpp:2019-2101).               -/
/- ------------------------------------------------------------------ -/

/-- `rd_opcode` table of `sg_build_scsi_cdb`. -/
def rd_opcode : List Nat := [0x8, 0x28, 0xa8, 0x88]

/-- `ve_opcode` table of `sg_build_scsi_cdb` (no 6-byte VERIFY). -/
def ve_opcode : List Nat := [0xff, 0x2f, 0xaf, 0x8f]

/-- `wr_opcode` table of `sg_build_scsi_cdb`. -/
def wr_opcode : List Nat := [0xa, 0x2a, 0xaa, 0x8a]

/-- Shallow embedding of `sg_build_scsi_cdb` (src/testing/sgh_dd.cpp:2019).
`start_block` is the value of the `int64_t` argument, which is non-negative at
every call site (it is a logical block address), so it is carried as a `Nat`;
the 64-bit mask constant `0xFFFFFFFFFFE00000` is the `int64_t` value of
`~0x1fffff` (a sign-extended 32-bit `int`).  `blocks` is the `unsigned int`
argument.  A `none` result models the fatal build error (C return value 1),
`some cdb` the zero return together with the CDB bytes written.  The byte
`cdb[1]` of the 6-byte variant is fully overwritten by the big-endian store at
`cdbp + 1`, exactly as in the source. -/
def sg_build_scsi_cdb (cdb_sz blocks start_block : Nat)
    (ver_true write_true fua dpo : Bool) : Option (List Nat) :=
  if ver_true ∧ cdb_sz < 10 then none
  else
    let cdb_sz := if ver_true then 10 else cdb_sz
    let fua := if ver_true then false else fua
    let flag1 := (if ver_true then 0x2 else 0) + (if dpo then 0x10 else 0) +
      (if fua then 0x8 else 0)
    match cdb_sz with
    | 6 =>
      let opcode := if write_true then wr_opcode.getD 0 0 else rd_opcode.getD 0 0
      let m := 0x1fffff &&& start_block
      let b4 := if blocks = 256 then 0 else blocks % 256
      if 256 < blocks then none
      else if (start_block + blocks - 1) &&& 0xFFFFFFFFFFE00000 ≠ 0 then none
      else if dpo ∨ fua then none
      else some ([opcode] ++ be24_bytes m ++ [b4, 0])
    | 10 =>
      let opcode :=
        if ver_true then ve_opcode.getD 1 0
        else if write_true then wr_opcode.getD 1 0 else rd_opcode.getD 1 0
      if blocks &&& 0xFFFF0000 ≠ 0 then none
      else some ([opcode, flag1] ++ be32_bytes (start_block % 2 ^ 32) ++ [0] ++
        be16_bytes (blocks % 2 ^ 16) ++ [0])
    | 12 =>
      let opcode := if write_true then wr_opcode.getD 2 0 else rd_opcode.getD 2 0
      some ([opcode, flag1] ++ be32_bytes (start_block % 2 ^ 32) ++
        be32_bytes (blocks % 2 ^ 32) ++ [0, 0])
    | 16 =>
      let opcode := if write_true then wr_opcode.getD 3 0 else rd_opcode.getD 3 0
      some ([opcode, flag1] ++ be64_bytes (start_block % 2 ^ 64) ++
        be32_bytes (blocks % 2 ^ 32) ++ [0, 0])
    | _ => none

/- ------------------------------------------------------------------ -/
/- Write-ordering gate (read_write_thread, src/testing/sgh_dd.cpp:      -/
/- 1715-1729).                                                          -/
/- ------------------------------------------------------------------ -/

/-- The configuration bits read by the ordering gate of
`read_write_thread`.  `out2_used` (a secondary sg write target is
configured) is carried because the spec mentions it; the source gate never
reads it. -/
structure GateCfg where
  in_is_sg : Bool
  out_is_sg : Bool
  /-- `clp->in_flags.random` -/
  in_random : Bool
  /-- `rep->outregfd >= 0`: a tee (ofreg) fd is set -/
  outreg_valid : Bool
  /-- `rep->has_share` -/
  has_share : Bool
  /-- `FT_DEV_NULL == clp->out_type` -/
  out_is_dev_null : Bool
  /-- a secondary (`of2`) write target is configured -/
  out2_used : Bool

/-- `share_and_ofreg = (rep->has_share && (rep->outregfd >= 0))`
(src/testing/sgh_dd.cpp:1638). -/
def share_and_ofreg (c : GateCfg) : Bool := c.has_share && c.outreg_valid

/-- The gate of `read_write_thread` (src/testing/sgh_dd.cpp:1715-1729):
`true` iff the worker enters the `out_sync_cv` wait loop.  Mirrors the two
`goto skip_force_out_sequence` branches followed by the guarded wait. -/
def force_out_sequence (c : GateCfg) : Bool :=
  if c.in_random then false
  else if !c.outreg_valid && c.in_is_sg && c.out_is_sg then false
  else if share_and_ofreg c || !c.out_is_dev_null then true
  else false

/-- The continuation condition of the wait loop:
`while (!out_stop && (oblk != out_blk)) pthread_cond_wait(...)`. -/
def out_sync_wait_continues (out_stop : Bool) (oblk out_blk : Nat) : Bool :=
  !out_stop && (oblk != out_blk)

/-- The gate condition as the claim states it (written from the claim, for
comparison with `force_out_sequence`): for a non-null-sink output the worker
waits, except when both sides are sg, the secondary target is unused and no
tee fd is set. -/
def claimed_force_out_sequence (c : GateCfg) : Bool :=
  !c.out_is_dev_null &&
    !(c.in_is_sg && c.out_is_sg && !c.out2_used && !c.outreg_valid)

/- ------------------------------------------------------------------ -/
/- Exit status recording and the final exit code                        -/
/- (src/testing/sgh_dd.cpp:1701, 2140, 2170, 2281, 2328, 2361,          -/
/-  5035-5041, 5089).                                                   -/
/- ------------------------------------------------------------------ -/

/-- Modelled from the spec: `sg_lib.h` (not under src/) defines the SCSI
sense categories used as exit codes. -/
def SG_LIB_CAT_NOT_READY : Int := 2

/-- Modelled from the spec: `sg_lib.h` value. -/
def SG_LIB_CAT_MEDIUM_HARD : Int := 3

/-- Modelled from the spec: `sg_lib.h` value. -/
def SG_LIB_CAT_UNIT_ATTENTION : Int := 6

/-- Modelled from the spec: `sg_lib.h` value. -/
def SG_LIB_CAT_ABORTED_COMMAND : Int := 11

/-- Modelled from the spec: `sg_lib.h` value. -/
def SG_LIB_CAT_MISCOMPARE : Int := 14

/-- Modelled from the spec: `sg_lib.h` value. -/
def SG_LIB_CAT_OTHER : Int := 99

/-- One write to the shared `exit_status` variable.  `sense res` is any of
the five guarded sites (`if (exit_status <= 0) exit_status = res;`, e.g.
src/testing/sgh_dd.cpp:2361-2362); `chkaddrFail` is the chkaddr-failure
site (src/testing/sgh_dd.cpp:1701), which assigns unconditionally. -/
inductive ExitEvent where
  | sense (res : Int) : ExitEvent
  | chkaddrFail : ExitEvent
deriving DecidableEq

/-- The effect of one recording site on `exit_status`. -/
def record_exit_status (st : Int) : ExitEvent → Int
  | .sense res => if st ≤ 0 then res else st
  | .chkaddrFail => SG_LIB_CAT_MISCOMPARE

/-- `exit_status` after a sequence of recording events (initially 0). -/
def run_exit_status (evs : List ExitEvent) : Int :=
  evs.foldl record_exit_status 0

/-- The category an event records. -/
def event_category : ExitEvent → Int
  | .sense res => res
  | .chkaddrFail => SG_LIB_CAT_MISCOMPARE

/-- The first non-zero category among the recorded ones — what the claim
says `exit_status` ends up as. -/
def first_nonzero_category (evs : List ExitEvent) : Int :=
  match evs.find? (fun e => event_category e != 0) with
  | some e => event_category e
  | none => 0

/-- The exit-code composition at the end of `main`
(src/testing/sgh_dd.cpp:5035-5041 and 5089):
`res = exit_status; if (out_count != 0 && dry_run == 0 && res == 0)
res = SG_LIB_CAT_OTHER; return res >= 0 ? res : SG_LIB_CAT_OTHER;`. -/
def main_exit_code (exit_st out_count : Int) (dry_run : Nat) : Int :=
  let res := exit_st
  let res := if out_count ≠ 0 ∧ dry_run = 0 ∧ res = 0 then SG_LIB_CAT_OTHER
    else res
  if 0 ≤ res then res else SG_LIB_CAT_OTHER

/- ------------------------------------------------------------------ -/
/- Pack-id allocation (sg_start_io, src/testing/sgh_dd.cpp:3225-3234;   -/
/- mono_pack_id at line 371, initialised to 1; rd_p_id zero-initialised -/
/- with `Rq_elem rel {}` at line 1491).                                 -/
/- ------------------------------------------------------------------ -/

/-- Allocator state: the process-wide `mono_pack_id` counter and each
worker's `rd_p_id` field. -/
structure AllocSt where
  mono : Nat
  rdp : Nat → Nat

/-- State at thread start: `mono_pack_id(1)` and zero-initialised
`rd_p_id`. -/
def initAllocSt : AllocSt := ⟨1, fun _ => 0⟩

/-- One `sg_start_io` call, identified by the calling worker and whether it
is the write side (`rep->wr`). -/
structure StartEv where
  tid : Nat
  wr : Bool
deriving DecidableEq

/-- The pack-id assignment of `sg_start_io` (src/testing/sgh_dd.cpp:
3225-3234).  With `both_sg`, a write takes `rep->rd_p_id + 1` and leaves the
state unchanged; a read takes `2 * atomic_fetch_add(&mono_pack_id, 1)` and
stores it in `rd_p_id`.  Otherwise every call takes
`atomic_fetch_add(&mono_pack_id, 1)`. -/
def assignPackId (both_sg : Bool) (e : StartEv) (st : AllocSt) :
    Nat × AllocSt :=
  if both_sg then
    if e.wr then (st.rdp e.tid + 1, st)
    else
      let id := 2 * st.mono
      (id, ⟨st.mono + 1, fun w => if w = e.tid then id else st.rdp w⟩)
  else
    (st.mono, ⟨st.mono + 1, st.rdp⟩)

/-- A submitted command annotated with its worker, direction, pack-id, and
its segment tag: for a read its own pack-id, for a write the calling
worker's `rd_p_id` at issue time (the pack-id of the read whose buffer it
writes). -/
structure SubmittedCmd where
  tid : Nat
  wr : Bool
  seg : Nat
  pid : Nat
deriving DecidableEq

/-- The commands produced by a sequence of `sg_start_io` calls. -/
def runAlloc (both_sg : Bool) : List StartEv → AllocSt → List SubmittedCmd
  | [], _ => []
  | e :: es, st =>
    { tid := e.tid, wr := e.wr,
      seg := if e.wr then st.rdp e.tid else (assignPackId both_sg e st).1,
      pid := (assignPackId both_sg e st).1 } ::
      runAlloc both_sg es (assignPackId both_sg e st).2

/-- In the worker loop every write-side `sg_start_io` call is preceded by a
read-side call of the same worker (the read half of the segment runs first),
so its `rd_p_id` is non-zero when the write is issued. -/
def writesPreceded : List StartEv → AllocSt → Prop
  | [], _ => True
  | e :: es, st =>
    (e.wr → st.rdp e.tid ≠ 0) ∧ writesPreceded es (assignPackId true e st).2

instance (es : List StartEv) (st : AllocSt) :
    Decidable (writesPreceded es st) := by
  induction es generalizing st with
  | nil => exact .isTrue trivial
  | cons e es ih =>
    have : Decidable (e.wr → st.rdp e.tid ≠ 0) := by infer_instance
    exact @instDecidableAnd _ _ this (ih _)

/-- The allocator invariant maintained by `assignPackId` in both-sg mode:
the counter has advanced at least to its initial value, every recorded
`rd_p_id` is either still zero or an even id at least 2 and below
`2 * mono`, and non-zero `rd_p_id` values identify their worker. -/
def AllocInv (st : AllocSt) : Prop :=
  1 ≤ st.mono ∧
  (∀ w, st.rdp w = 0 ∨
    (st.rdp w % 2 = 0 ∧ 2 ≤ st.rdp w ∧ st.rdp w < 2 * st.mono)) ∧
  (∀ w w', st.rdp w ≠ 0 → st.rdp w = st.rdp w' → w = w')

/-- Number of read-side calls in an event list. -/
def countReads (es : List StartEv) : Nat :=
  (es.filter (fun e => !e.wr)).length

/- ------------------------------------------------------------------ -/
/- Split writes (sg_out_wr_cmd, src/testing/sgh_dd.cpp:2288-2378;       -/
/- sg_start_io, src/testing/sgh_dd.cpp:3177-3257).                      -/
/- ------------------------------------------------------------------ -/

/-- The parts of one emitted sg write command that the split logic
determines: the CDB start LBA and block count, the v4 header slot, the
`SGV4_FLAG_KEEP_SHARE` and `SGV4_FLAG_DOUT_OFFSET` flags, and `spare_in`. -/
structure WrCmd where
  start : Nat
  blks : Nat
  hpv4_ind : Nat
  keep_share : Bool
  dout_offset : Bool
  spare_in : Nat
deriving DecidableEq

/-- One write-side `sg_start_io` call (src/testing/sgh_dd.cpp:3177-3257) as
it consumes the `sg_io_extra` split fields: the CDB is built for
`oblk + blk_offset, blks` when the dout is split (3177-3182), the upper half
(`hpv4_ind = 1`) gets `SGV4_FLAG_DOUT_OFFSET` and `spare_in = bs *
blk_offset` (3248-3252), and the lower half gets `SGV4_FLAG_KEEP_SHARE` when
`blks < num_blks` (3254-3255).  `ofile2_kept_share` covers the independent
`clp->ofile2_given && wr && rep->has_share && !is_wr2` KEEP_SHARE source and
`fail_mask_1` the `clp->fail_mask & 1` one (3257-3260). -/
def sg_start_io_wr_cmd (bs oblk num_blks : Nat) (dout_is_split : Bool)
    (hpv4_ind blk_offset blks : Nat) (ofile2_kept_share fail_mask_1 : Bool) :
    WrCmd :=
  if dout_is_split then
    { start := oblk + blk_offset
      blks := blks
      hpv4_ind := hpv4_ind
      dout_offset := hpv4_ind = 1
      spare_in := if hpv4_ind = 1 then bs * blk_offset else 0
      keep_share := (hpv4_ind = 0 ∧ blks < num_blks) ∨ ofile2_kept_share ∨
        fail_mask_1 }
  else
    { start := oblk, blks := num_blks, hpv4_ind := 0,
      dout_offset := false, spare_in := 0,
      keep_share := ofile2_kept_share ∨ fail_mask_1 }

/-- The write commands `sg_out_wr_cmd` emits for one segment
(src/testing/sgh_dd.cpp:2288-2378, the split set-up before `split_upper` and
the `fini` block that re-enters for the upper half): two commands when
`0 < ofsplit < num_blks`, one otherwise. -/
def sg_out_wr_cmds (bs oblk num_blks ofsplit : Nat)
    (ofile2_kept_share fail_mask_1 : Bool) : List WrCmd :=
  if 0 < ofsplit ∧ ofsplit < num_blks then
    [sg_start_io_wr_cmd bs oblk num_blks true 0 0 ofsplit
        ofile2_kept_share fail_mask_1,
     sg_start_io_wr_cmd bs oblk num_blks true 1 ofsplit (num_blks - ofsplit)
        ofile2_kept_share fail_mask_1]
  else
    [sg_start_io_wr_cmd bs oblk num_blks false 0 0 num_blks
        ofile2_kept_share fail_mask_1]

/- ------------------------------------------------------------------ -/
/- Short reads (normal_in_rd, src/testing/sgh_dd.cpp:1936-1976).        -/
/- ------------------------------------------------------------------ -/

/-- The two counters `normal_in_rd` updates: `clp->in_partial` (here named
`in_part_count`) and `clp->in_rem_count`. -/
structure InRdCounters where
  in_part_count : Int
  in_rem_count : Int
deriving DecidableEq

/-- Result of the accounting tail of `normal_in_rd`. -/
structure InRdResult where
  stop_after_write : Bool
  num_blks : Nat
  counters : InRdCounters
deriving DecidableEq

/-- The tail of `normal_in_rd` (src/testing/sgh_dd.cpp:1959-1976) once
`read(2)` has returned `res ≥ 0` bytes for a request of `blocks` blocks of
`bs` bytes: on a short read set `stop_after_write`, recompute `blocks` as
`res / bs` plus one more (and bump `in_partial`) when a remainder exists,
store it in `rep->num_blks`, and in all cases subtract the final `blocks`
from `in_rem_count`. -/
def normal_in_rd_after_read (bs blocks res : Nat) (c : InRdCounters) :
    InRdResult :=
  if res < blocks * bs then
    let blocks1 := res / bs
    let blocks2 := if 0 < res % bs then blocks1 + 1 else blocks1
    { stop_after_write := true
      num_blks := blocks2
      counters :=
        { in_part_count :=
            if 0 < res % bs then c.in_part_count + 1 else c.in_part_count
          in_rem_count := c.in_rem_count - blocks2 } }
  else
    { stop_after_write := false
      num_blks := blocks
      counters := { c with in_rem_count := c.in_rem_count - blocks } }

/- ------------------------------------------------------------------ -/
/- The deferred MRQ array (sg_start_io, src/testing/sgh_dd.cpp:          -/
/- 3353-3371; sgh_do_deferred_mrq, 2847-3138; loop exits in               -/
/- read_write_thread, 1649-1806).                                        -/
/- ------------------------------------------------------------------ -/

/-- The worker's deferred array together with everything already handed to
the kernel; entries are abstract request identities. -/
structure MrqSt where
  pending : List Nat
  submitted : List Nat
deriving DecidableEq

/-- `sgh_do_deferred_mrq` (src/testing/sgh_dd.cpp:2847-3138): submits every
pending entry in order in one multi-request ioctl and clears the array at
`fini` (`def_arr.first.clear(); def_arr.second.clear();`).  (The only path
that skips the clear, a failed `calloc` with `mrq_cmds`, makes the caller
`err_exit` the process.) -/
def sgh_do_deferred_mrq (st : MrqSt) : MrqSt :=
  { pending := [], submitted := st.submitted ++ st.pending }

/-- The deferred-push tail of `sg_start_io` when `clp->nmrqs > 0`
(src/testing/sgh_dd.cpp:3353-3371): append the header and CDB to the array
and flush at once when its size reaches `nmrqs`.  The pushed entry is not
submitted here (the function returns before the `SG_IOSUBMIT` below). -/
def sg_start_io_deferred (nmrqs : Nat) (e : Nat) (st : MrqSt) : MrqSt :=
  let st1 : MrqSt := { st with pending := st.pending ++ [e] }
  if nmrqs ≤ st1.pending.length then sgh_do_deferred_mrq st1 else st1

/-- A sequence of deferred pushes. -/
def runMrq (nmrqs : Nat) (es : List Nat) (st : MrqSt) : MrqSt :=
  es.foldl (fun s e => sg_start_io_deferred nmrqs e s) st

/-- The four exits of the main copy loop of `read_write_thread`. -/
inductive LoopExit where
  /-- `my_index >= dd_count` (src/testing/sgh_dd.cpp:1650-1663) -/
  | endOfCount
  /-- `out_stop || out_count <= 0` (src/testing/sgh_dd.cpp:1731-1737) -/
  | stopRequested
  /-- `0 == rep->num_blks` (src/testing/sgh_dd.cpp:1788-1800) -/
  | readNothing
  /-- `stop_after_write` at the loop bottom (src/testing/sgh_dd.cpp:
  1804-1805) -/
  | stopAfterWrite
deriving DecidableEq

/-- What each loop exit does to the deferred array: only the `endOfCount`
and `readNothing` exits run the tail `sgh_do_deferred_mrq` (and only when
`nmrqs > 0` and entries are pending); the other two `break` right out. -/
def loop_exit_mrq (nmrqs : Nat) (ex : LoopExit) (st : MrqSt) : MrqSt :=
  match ex with
  | .endOfCount =>
    if 0 < nmrqs ∧ 0 < st.pending.length then sgh_do_deferred_mrq st else st
  | .stopRequested => st
  | .readNothing =>
    if 0 < nmrqs ∧ 0 < st.pending.length then sgh_do_deferred_mrq st else st
  | .stopAfterWrite => st

/- ------------------------------------------------------------------ -/
/- chkaddr pattern generation and checking                              -/
/- (normal_in_rd, src/testing/sgh_dd.cpp:1896-1905;                     -/
/-  read_write_thread, src/testing/sgh_dd.cpp:1686-1705).               -/
/- ------------------------------------------------------------------ -/

/-- Modelled from the spec: `sg_put_unaligned_be32` (include/sg_unaligned.h
is not under src/) on a byte buffer `Nat → Nat`: positions `p..p+3` receive
the big-endian bytes of `v`. -/
def putBe32 (v p : Nat) (buf : Nat → Nat) : Nat → Nat := fun i =>
  if i = p then v / 2 ^ 24 % 256
  else if i = p + 1 then v / 2 ^ 16 % 256
  else if i = p + 2 then v / 2 ^ 8 % 256
  else if i = p + 3 then v % 256
  else buf i

/-- Modelled from the spec: `sg_get_unaligned_be32` reassembles the
big-endian 32-bit value stored at `p..p+3`. -/
def getBe32 (buf : Nat → Nat) (p : Nat) : Nat :=
  buf p * 2 ^ 24 + buf (p + 1) * 2 ^ 16 + buf (p + 2) * 2 ^ 8 + buf (p + 3)

/-- The per-block generator loop of `normal_in_rd` with `iflag=00,ff`
(src/testing/sgh_dd.cpp:1900-1903): `for (j = 0; j < bs - 3; j += 4)
sg_put_unaligned_be32(pos, buffp + off + j)`, here for one block at offset
0 and with `lim = bs - 3`. -/
def fill_addr_block (pos : Nat) (buf : Nat → Nat) (j lim : Nat) :
    Nat → Nat :=
  if j < lim then fill_addr_block pos (putBe32 pos j buf) (j + 4) lim
  else buf
termination_by lim - j
decreasing_by omega

/-- The per-block checker loop of `read_write_thread` with `--chkaddr`
(src/testing/sgh_dd.cpp:1692-1696): `for (j = 0; j < num; j += 4)` compare
the stored big-endian value with `addr`, stopping at the first mismatch;
`true` iff the block passes. -/
def chk_addr_block (addr : Nat) (buf : Nat → Nat) (j num : Nat) : Bool :=
  if j < num then (getBe32 buf j == addr) && chk_addr_block addr buf (j + 4) num
  else true
termination_by num - j
decreasing_by omega

/-- The number of bytes the checker scans per block
(src/testing/sgh_dd.cpp:1690): 4 when `chkaddr == 1` (single-word mode),
`bs - 3` otherwise (whole-block mode). -/
def chk_addr_num (c_addr bs : Nat) : Nat := if c_addr = 1 then 4 else bs - 3

/- ------------------------------------------------------------------ -/
/- sg_finish_io head (src/testing/sgh_dd.cpp:3445-3546).                -/
/- ------------------------------------------------------------------ -/

/-- What one `sg_finish_io` call produces: its return value, the value it
leaves in `rep->resid`, and whether it consumed a completion from the
driver (v3 `read(2)` of the header, or `SG_IORECEIVE`). -/
structure FinishRes where
  ret : Int
  resid : Int
  dequeued : Bool
deriving DecidableEq

/-- The branch structure of `sg_finish_io` (src/testing/sgh_dd.cpp:
3445-3546): the v3 path reads a completion back from the fd and classifies
it; the v4 path jumps to `do_v4`, where `nmrqs > 0` returns 0 at once with
`rep->resid = 0` and no `SG_IORECEIVE`, and otherwise an `SG_IORECEIVE`
dequeues the matching completion.  The classification outcome and residual
of a real completion are abstracted as the `v3_done`/`v4_done`
parameters. -/
def sg_finish_io_head (v4 : Bool) (nmrqs : Nat)
    (v3_done v4_done : Int × Int) : FinishRes :=
  if v4 then
    if 0 < nmrqs then { ret := 0, resid := 0, dequeued := false }
    else { ret := v4_done.1, resid := v4_done.2, dequeued := true }
  else { ret := v3_done.1, resid := v3_done.2, dequeued := true }

/- ================================================================== -/
/- Shared helper lemmas.                                               -/
/- ================================================================== -/

/-- On a value below `2^64`, the 64-bit mask `~0x1fffff` selects a non-zero
bit exactly when the value does not fit in 21 bits. -/
theorem and_hi21_eq_zero_iff {x : Nat} (hx : x < 2 ^ 64) :
    x &&& 0xFFFFFFFFFFE00000 = 0 ↔ x < 2 ^ 21 := by
  have hmask : (0xFFFFFFFFFFE00000 : Nat) = (2 ^ 64 - 1) ^^^ (2 ^ 21 - 1) := by
    decide
  constructor
  · intro h
    by_contra hge
    push_neg at hge
    obtain ⟨i, hi21, hbit⟩ := Nat.ge_two_pow_implies_high_bit_true hge
    have hi64 : i < 64 := by
      by_contra h64
      push_neg at h64
      have hb : x.testBit i = false :=
        Nat.testBit_lt_two_pow
          (lt_of_lt_of_le hx (Nat.pow_le_pow_right (by norm_num) h64))
      rw [hb] at hbit
      exact Bool.noConfusion hbit
    have hm : (0xFFFFFFFFFFE00000 : Nat).testBit i = true := by
      rw [hmask, Nat.testBit_xor, Nat.testBit_two_pow_sub_one,
        Nat.testBit_two_pow_sub_one]
      simp [hi64, Nat.not_lt.mpr hi21]
    have hz := congrArg (fun y => y.testBit i) h
    simp only [Nat.testBit_and, hbit, hm, Nat.zero_testBit,
      Bool.and_self] at hz
    exact Bool.noConfusion hz
  · intro h
    apply Nat.eq_of_testBit_eq
    intro i
    simp only [Nat.testBit_and, Nat.zero_testBit]
    rcases lt_or_ge i 21 with hi | hi
    · have hm : (0xFFFFFFFFFFE00000 : Nat).testBit i = false := by
        rw [hmask, Nat.testBit_xor, Nat.testBit_two_pow_sub_one,
          Nat.testBit_two_pow_sub_one]
        have hi64 : i < 64 := lt_trans hi (by norm_num)
        simp [hi, hi64]
      simp [hm]
    · have hx' : x.testBit i = false :=
        Nat.testBit_lt_two_pow
          (lt_of_lt_of_le h (Nat.pow_le_pow_right (by norm_num) hi))
      simp [hx']

/-- `0x1fffff & s` is the low 21 bits of `s`. -/
theorem and_1fffff_eq_mod (s : Nat) : 0x1fffff &&& s = s % 2 ^ 21 := by
  rw [Nat.and_comm]
  have h : (0x1fffff : Nat) = 2 ^ 21 - 1 := by norm_num
  rw [h, Nat.and_pow_two_sub_one_eq_mod]

/- ================================================================== -/
/- C6: 6-byte CDB construction.                                        -/
/- ================================================================== -/

/-- The 6-byte branch of `sg_build_scsi_cdb`, flattened. -/
theorem sg_build_scsi_cdb_6_eq (blocks start_block : Nat)
    (write_true fua dpo : Bool) (hs : start_block + blocks ≤ 2 ^ 63) :
    sg_build_scsi_cdb 6 blocks start_block false write_true fua dpo =
      (if 256 < blocks then none
       else if 0x1fffff < start_block + blocks - 1 then none
       else if dpo = true ∨ fua = true then none
       else some [if write_true then 0xa else 0x8,
         start_block % 2 ^ 21 / 2 ^ 16 % 256,
         start_block % 2 ^ 21 / 2 ^ 8 % 256, start_block % 2 ^ 21 % 256,
         if blocks = 256 then 0 else blocks % 256, 0]) := by
  have hx64 : start_block + blocks - 1 < 2 ^ 64 := by
    have h2 : (2 : Nat) ^ 63 < 2 ^ 64 := by norm_num
    omega
  have hmask :
      ((start_block + blocks - 1) &&& 0xFFFFFFFFFFE00000 ≠ 0) =
        (0x1fffff < start_block + blocks - 1) := by
    rw [eq_iff_iff, Ne, and_hi21_eq_zero_iff hx64, Nat.not_lt]
    have h21 : (2 : Nat) ^ 21 = 0x1fffff + 1 := by norm_num
    rw [h21]
    omega
  simp only [sg_build_scsi_cdb, and_1fffff_eq_mod, hmask, Bool.false_eq_true,
    false_and, if_false]
  rfl

/-- C6: for a 6-byte READ/WRITE CDB build, the build fails exactly when the
block count exceeds 256, the last addressed LBA exceeds `0x1FFFFF`, or DPO
or FUA is requested; on success byte 4 encodes 256 blocks as 0, and bytes
1..3 carry the low 21 bits of the LBA big-endian. -/
theorem cdb6_build_characterisation (blocks start_block : Nat)
    (write_true fua dpo : Bool) (hb : 1 ≤ blocks)
    (hs : start_block + blocks ≤ 2 ^ 63) :
    (sg_build_scsi_cdb 6 blocks start_block false write_true fua dpo = none ↔
      (256 < blocks ∨ 0x1fffff < start_block + blocks - 1 ∨
        dpo = true ∨ fua = true)) ∧
    (∀ cdb,
      sg_build_scsi_cdb 6 blocks start_block false write_true fua dpo =
        some cdb →
      cdb = [if write_true then 0xa else 0x8,
        start_block % 2 ^ 21 / 2 ^ 16 % 256,
        start_block % 2 ^ 21 / 2 ^ 8 % 256, start_block % 2 ^ 21 % 256,
        if blocks = 256 then 0 else blocks, 0] ∧
      cdb.getD 1 0 * 2 ^ 16 + cdb.getD 2 0 * 2 ^ 8 + cdb.getD 3 0 =
        start_block % 2 ^ 21 ∧
      cdb.getD 4 0 = (if blocks = 256 then 0 else blocks)) := by
  rw [sg_build_scsi_cdb_6_eq blocks start_block write_true fua dpo hs]
  constructor
  · constructor
    · intro hnone
      by_cases h1 : 256 < blocks
      · exact Or.inl h1
      · rw [if_neg h1] at hnone
        by_cases h2 : 0x1fffff < start_block + blocks - 1
        · exact Or.inr (Or.inl h2)
        · rw [if_neg h2] at hnone
          by_cases h3 : dpo = true ∨ fua = true
          · exact Or.inr (Or.inr h3)
          · rw [if_neg h3] at hnone
            exact absurd hnone (by simp)
    · intro hcon
      rcases hcon with h | h | h
      · rw [if_pos h]
      · by_cases h1 : 256 < blocks
        · rw [if_pos h1]
        · rw [if_neg h1, if_pos h]
      · by_cases h1 : 256 < blocks
        · rw [if_pos h1]
        · rw [if_neg h1]
          by_cases h2 : 0x1fffff < start_block + blocks - 1
          · rw [if_pos h2]
          · rw [if_neg h2, if_pos h]
  · intro cdb hcdb
    by_cases h1 : 256 < blocks
    · rw [if_pos h1] at hcdb
      exact absurd hcdb (by simp)
    · rw [if_neg h1] at hcdb
      by_cases h2 : 0x1fffff < start_block + blocks - 1
      · rw [if_pos h2] at hcdb
        exact absurd hcdb (by simp)
      · rw [if_neg h2] at hcdb
        by_cases h3 : dpo = true ∨ fua = true
        · rw [if_pos h3] at hcdb
          exact absurd hcdb (by simp)
        · rw [if_neg h3] at hcdb
          have hcdb' : cdb = _ := (Option.some.inj hcdb).symm
          subst hcdb'
          have hm : start_block % 2 ^ 21 < 2 ^ 21 :=
            Nat.mod_lt _ (by norm_num)
          refine ⟨?_, ?_, ?_⟩
          · rcases eq_or_ne blocks 256 with hb' | hb'
            · simp [hb']
            · have hmod : blocks % 256 = blocks := by omega
              simp [hb', hmod]
          · simp only [List.getD_cons_succ, List.getD_cons_zero]
            omega
          · simp only [List.getD_cons_succ, List.getD_cons_zero]
            rcases eq_or_ne blocks 256 with hb' | hb'
            · simp [hb']
            · have hmod : blocks % 256 = blocks := by omega
              simp [hb', hmod]

/-- Witness for C6 at `blocks = 1`, `start_block = 0x1fffff`, no DPO/FUA:
the build succeeds and encodes the top of the 21-bit range. -/
theorem cdb6_build_characterisation_witness :
    ((1 : Nat) ≤ 1 ∧ (0x1fffff : Nat) + 1 ≤ 2 ^ 63) ∧
    ((sg_build_scsi_cdb 6 1 0x1fffff false true false false = none ↔
      (256 < 1 ∨ 0x1fffff < 0x1fffff + 1 - 1 ∨
        false = true ∨ false = true)) ∧
    (∀ cdb, sg_build_scsi_cdb 6 1 0x1fffff false true false false =
        some cdb →
      cdb = [if true then 0xa else 0x8,
        0x1fffff % 2 ^ 21 / 2 ^ 16 % 256,
        0x1fffff % 2 ^ 21 / 2 ^ 8 % 256, 0x1fffff % 2 ^ 21 % 256,
        if (1 : Nat) = 256 then 0 else 1, 0] ∧
      cdb.getD 1 0 * 2 ^ 16 + cdb.getD 2 0 * 2 ^ 8 + cdb.getD 3 0 =
        0x1fffff % 2 ^ 21 ∧
      cdb.getD 4 0 = (if (1 : Nat) = 256 then 0 else 1))) :=
  ⟨by norm_num,
   cdb6_build_characterisation 1 0x1fffff true false false (by norm_num)
     (by norm_num)⟩

/- ================================================================== -/
/- C5: split-write coverage.                                           -/
/- ================================================================== -/

/-- C5: with `0 < ofsplit = k < num_blks = c`, the segment is written as
exactly two commands: `[oblk, oblk+k)` in v4 slot 0 with KEEP_SHARE and no
buffer offset, and `[oblk+k, oblk+c)` in v4 slot 1 with DOUT_OFFSET and
`spare_in = bs*k`; the two ranges cover `[oblk, oblk+c)` without overlap or
gap. -/
theorem split_write_coverage (bs oblk c k : Nat) (hk : 0 < k) (hkc : k < c) :
    sg_out_wr_cmds bs oblk c k false false =
      [{ start := oblk, blks := k, hpv4_ind := 0, keep_share := true,
         dout_offset := false, spare_in := 0 },
       { start := oblk + k, blks := c - k, hpv4_ind := 1,
         keep_share := false, dout_offset := true, spare_in := bs * k }] ∧
    (oblk + k) + (c - k) = oblk + c ∧
    (∀ lba, (oblk ≤ lba ∧ lba < oblk + c) ↔
      ((oblk ≤ lba ∧ lba < oblk + k) ∨
        (oblk + k ≤ lba ∧ lba < (oblk + k) + (c - k)))) ∧
    (∀ lba, ¬((oblk ≤ lba ∧ lba < oblk + k) ∧
      (oblk + k ≤ lba ∧ lba < (oblk + k) + (c - k)))) := by
  refine ⟨?_, by omega, fun lba => by omega, fun lba => by omega⟩
  rw [sg_out_wr_cmds, if_pos ⟨hk, hkc⟩]
  simp [sg_start_io_wr_cmd, hkc]

/-- Witness for C5 at `bs = 512`, `oblk = 100`, `c = 4`, `k = 1`. -/
theorem split_write_coverage_witness :
    ((0 : Nat) < 1 ∧ (1 : Nat) < 4) ∧
    (sg_out_wr_cmds 512 100 4 1 false false =
      [{ start := 100, blks := 1, hpv4_ind := 0, keep_share := true,
         dout_offset := false, spare_in := 0 },
       { start := 100 + 1, blks := 4 - 1, hpv4_ind := 1,
         keep_share := false, dout_offset := true, spare_in := 512 * 1 }] ∧
    (100 + 1) + (4 - 1) = 100 + 4 ∧
    (∀ lba, (100 ≤ lba ∧ lba < 100 + 4) ↔
      ((100 ≤ lba ∧ lba < 100 + 1) ∨
        (100 + 1 ≤ lba ∧ lba < (100 + 1) + (4 - 1)))) ∧
    (∀ lba, ¬((100 ≤ lba ∧ lba < 100 + 1) ∧
      (100 + 1 ≤ lba ∧ lba < (100 + 1) + (4 - 1))))) :=
  ⟨⟨by norm_num, by norm_num⟩,
   split_write_coverage 512 100 4 1 (by norm_num) (by norm_num)⟩

/- ================================================================== -/
/- C7: short-read accounting.                                          -/
/- ================================================================== -/

/-- C7: a short `read(2)` of `res` bytes (`0 ≤ res < blocks*bs`) sets
`stop_after_write`, reduces the segment block count to `⌈res/bs⌉`, bumps
`in_partial` exactly when `res` is not a multiple of `bs`, and subtracts the
reduced count from `in_rem_count`. -/
theorem short_read_accounting (bs blocks res : Nat) (c : InRdCounters)
    (hbs : 0 < bs) (hres : res < blocks * bs) :
    (normal_in_rd_after_read bs blocks res c).stop_after_write = true ∧
    (normal_in_rd_after_read bs blocks res c).num_blks =
      (res + bs - 1) / bs ∧
    (res % bs ≠ 0 →
      (normal_in_rd_after_read bs blocks res c).counters.in_part_count =
        c.in_part_count + 1) ∧
    (res % bs = 0 →
      (normal_in_rd_after_read bs blocks res c).counters.in_part_count =
        c.in_part_count) ∧
    (normal_in_rd_after_read bs blocks res c).counters.in_rem_count =
      c.in_rem_count -
        ((normal_in_rd_after_read bs blocks res c).num_blks : Int) := by
  have hceil : (if 0 < res % bs then res / bs + 1 else res / bs) =
      (res + bs - 1) / bs := by
    rcases Nat.eq_zero_or_pos (res % bs) with h0 | h0
    · rw [if_neg (by omega)]
      obtain ⟨q, hq⟩ : ∃ q, res = bs * q :=
        ⟨res / bs, by rw [Nat.mul_div_cancel' (Nat.dvd_of_mod_eq_zero h0)]⟩
      subst hq
      rw [Nat.mul_div_cancel_left _ hbs]
      have h1 : bs * q + bs - 1 = bs * q + (bs - 1) := by omega
      rw [h1, Nat.mul_add_div hbs, Nat.div_eq_of_lt (by omega)]
      omega
    · rw [if_pos h0]
      have hd := Nat.div_add_mod res bs
      set q := res / bs with hqdef
      set r := res % bs with hrdef
      have hrlt : r < bs := Nat.mod_lt _ hbs
      have hbq : bs * (q + 1) = bs * q + bs := by ring
      have h1 : res + bs - 1 = bs * (q + 1) + (r - 1) := by omega
      rw [h1, Nat.mul_add_div hbs, Nat.div_eq_of_lt (by omega)]
  unfold normal_in_rd_after_read
  rw [if_pos hres]
  refine ⟨rfl, hceil, ?_, ?_, ?_⟩
  · intro h
    simp only [if_pos (Nat.pos_of_ne_zero h)]
  · intro h
    rw [if_neg (by omega)]
  · rfl

/-- Witness for C7: `bs = 512`, `blocks = 4`, `res = 513` (one full block
and one partial). -/
theorem short_read_accounting_witness :
    ((0 : Nat) < 512 ∧ (513 : Nat) < 4 * 512) ∧
    ((normal_in_rd_after_read 512 4 513 ⟨0, 100⟩).stop_after_write = true ∧
    (normal_in_rd_after_read 512 4 513 ⟨0, 100⟩).num_blks =
      (513 + 512 - 1) / 512 ∧
    ((513 : Nat) % 512 ≠ 0 →
      (normal_in_rd_after_read 512 4 513 ⟨0, 100⟩).counters.in_part_count =
        (0 : Int) + 1) ∧
    ((513 : Nat) % 512 = 0 →
      (normal_in_rd_after_read 512 4 513 ⟨0, 100⟩).counters.in_part_count =
        (0 : Int)) ∧
    (normal_in_rd_after_read 512 4 513 ⟨0, 100⟩).counters.in_rem_count =
      (100 : Int) -
        ((normal_in_rd_after_read 512 4 513 ⟨0, 100⟩).num_blks : Int)) :=
  ⟨⟨by norm_num, by norm_num⟩,
   short_read_accounting 512 4 513 ⟨0, 100⟩ (by norm_num) (by norm_num)⟩

/- ================================================================== -/
/- C10: sg_finish_io under deferred MRQ.                               -/
/- ================================================================== -/

/-- C10: with `nmrqs > 0` on a v4 side, `sg_finish_io` returns 0 and zeroes
`rep->resid` without dequeuing any completion, whatever a real completion
would have said. -/
theorem finish_under_mrq_no_dequeue (nmrqs : Nat)
    (v3_done v4_done : Int × Int) (h : 0 < nmrqs) :
    sg_finish_io_head true nmrqs v3_done v4_done =
      { ret := 0, resid := 0, dequeued := false } := by
  rw [sg_finish_io_head, if_pos rfl, if_pos h]

/-- Witness for C10 at `nmrqs = 4` and completions that would have reported
category 3 / residual 17. -/
theorem finish_under_mrq_no_dequeue_witness :
    (0 : Nat) < 4 ∧
    sg_finish_io_head true 4 (3, 17) (3, 17) =
      { ret := 0, resid := 0, dequeued := false } :=
  ⟨by norm_num, finish_under_mrq_no_dequeue 4 (3, 17) (3, 17) (by norm_num)⟩

/- ================================================================== -/
/- C1: the write-ordering gate.                                        -/
/- ================================================================== -/

/-- C1 counterexample: with both sides sg, a secondary (`of2`) target
configured, no tee fd, `random` off and a non-null output, the claim says
the gate is taken (the secondary target is *used*), but the source elides
it: the gate never reads the secondary-target configuration. -/
theorem ordering_gate_counterexample :
    force_out_sequence
        ⟨true, true, false, false, true, false, true⟩ = false ∧
    claimed_force_out_sequence
        ⟨true, true, false, false, true, false, true⟩ = true := by
  constructor <;> rfl

/-- C1 amended: the worker enters the `out_sync_cv` gate iff `random` is not
set, it is not the case that both sides are sg with no tee fd — the
secondary (`of2`) target plays no role — and either the output is not a
null sink or a share-plus-tee is active; while gated it waits exactly until
`out_blk` reaches its output LBA or a stop is flagged. -/
theorem ordering_gate_characterisation (c : GateCfg) :
    (force_out_sequence c =
      (!c.in_random && !(!c.outreg_valid && c.in_is_sg && c.out_is_sg) &&
        (share_and_ofreg c || !c.out_is_dev_null))) ∧
    (∀ b, force_out_sequence { c with out2_used := b } =
      force_out_sequence c) ∧
    (∀ out_stop oblk out_blk,
      out_sync_wait_continues out_stop oblk out_blk = true ↔
        (out_stop = false ∧ oblk ≠ out_blk)) := by
  obtain ⟨i, o, r, v, h, n, u⟩ := c
  refine ⟨?_, ?_, ?_⟩
  · cases i <;> cases o <;> cases r <;> cases v <;> cases h <;> cases n <;>
      rfl
  · intro b
    rfl
  · intro out_stop oblk out_blk
    cases out_stop <;> simp [out_sync_wait_continues]

/- ================================================================== -/
/- C2: exit-status recording and the final exit code.                  -/
/- ================================================================== -/

/-- Helper: once `exit_status` is positive, the guarded recording sites
leave it alone. -/
theorem foldl_record_exit_status_pos (evs : List ExitEvent) (st : Int)
    (hst : 0 < st) (hno : ExitEvent.chkaddrFail ∉ evs) :
    evs.foldl record_exit_status st = st := by
  induction evs with
  | nil => rfl
  | cons e rest ih =>
    rcases e with res | _
    · have hstep : record_exit_status st (.sense res) = st := by
        rw [record_exit_status, if_neg (by omega)]
      rw [List.foldl_cons, hstep]
      exact ih (fun hmem => hno (List.mem_cons_of_mem _ hmem))
    · exact absurd (List.mem_cons_self _ _) hno

/-- C2 counterexample: a worker records NOT READY (category 2), then
another worker hits a chkaddr miscompare; the final `exit_status` is 14,
not the first non-zero category recorded — the chkaddr site
(src/testing/sgh_dd.cpp:1701) writes unconditionally. -/
theorem exit_status_counterexample :
    run_exit_status
        [ExitEvent.sense SG_LIB_CAT_NOT_READY, ExitEvent.chkaddrFail] ≠
      first_nonzero_category
        [ExitEvent.sense SG_LIB_CAT_NOT_READY, ExitEvent.chkaddrFail] := by
  decide

/-- C2 amended: the five sense-recording sites write only while
`exit_status ≤ 0`, but a chkaddr miscompare overwrites unconditionally with
`SG_LIB_CAT_MISCOMPARE`; first-writer-wins therefore holds for runs with
positive recorded categories and no chkaddr failure.  The final exit code
is the positive `exit_status` if any, else `SG_LIB_CAT_OTHER` when the
remaining out-count is non-zero outside a dry run or when `exit_status` is
negative, else 0. -/
theorem exit_status_and_exit_code :
    (∀ st res : Int, 0 < st →
      record_exit_status st (.sense res) = st) ∧
    (∀ st : Int, record_exit_status st .chkaddrFail =
      SG_LIB_CAT_MISCOMPARE) ∧
    (∀ evs, (∀ e ∈ evs, 0 < event_category e) →
      ExitEvent.chkaddrFail ∉ evs →
      run_exit_status evs = first_nonzero_category evs) ∧
    (∀ (es oc : Int) (dr : Nat),
      (0 < es → main_exit_code es oc dr = es) ∧
      (es = 0 → oc = 0 ∨ dr ≠ 0 → main_exit_code es oc dr = 0) ∧
      (es = 0 → oc ≠ 0 → dr = 0 →
        main_exit_code es oc dr = SG_LIB_CAT_OTHER) ∧
      (es < 0 → main_exit_code es oc dr = SG_LIB_CAT_OTHER)) := by
  refine ⟨?_, ?_, ?_, ?_⟩
  · intro st res hst
    rw [record_exit_status, if_neg (by omega)]
  · intro st
    rfl
  · intro evs hpos hno
    cases evs with
    | nil => rfl
    | cons e rest =>
      have hcat : 0 < event_category e := hpos e (List.mem_cons_self _ _)
      rcases e with res | _
      · have hres : 0 < res := by
          simpa [event_category] using hcat
        have hne : res ≠ 0 := by omega
        have hfind : first_nonzero_category (ExitEvent.sense res :: rest) =
            res := by
          simp [first_nonzero_category, List.find?_cons, event_category, hne]
        rw [hfind, run_exit_status, List.foldl_cons]
        have hstep : record_exit_status 0 (.sense res) = res := by
          rw [record_exit_status, if_pos (by omega)]
        rw [hstep]
        exact foldl_record_exit_status_pos rest res hres
          (fun hmem => hno (List.mem_cons_of_mem _ hmem))
      · exact absurd (List.mem_cons_self _ _) hno
  · intro es oc dr
    refine ⟨?_, ?_, ?_, ?_⟩
    · intro hes
      rw [main_exit_code]
      simp only [if_neg (by omega : ¬(oc ≠ 0 ∧ dr = 0 ∧ es = 0))]
      rw [if_pos (by omega)]
    · intro hes hocdr
      rw [main_exit_code]
      simp only [if_neg (by omega : ¬(oc ≠ 0 ∧ dr = 0 ∧ es = 0))]
      rw [if_pos (by omega)]
      omega
    · intro hes hoc hdr
      rw [main_exit_code]
      simp only [if_pos (⟨hoc, hdr, hes⟩ : oc ≠ 0 ∧ dr = 0 ∧ es = 0)]
      rw [if_pos (by rw [SG_LIB_CAT_OTHER]; omega)]
    · intro hes
      rw [main_exit_code]
      simp only [if_neg (by omega : ¬(oc ≠ 0 ∧ dr = 0 ∧ es = 0))]
      rw [if_neg (by omega)]

/-- Witness for C2 (amended): a run recording MEDIUM HARD then NOT READY
keeps the first category, and an error-free exit with remaining out-count 5
yields `SG_LIB_CAT_OTHER`. -/
theorem exit_status_and_exit_code_witness :
    run_exit_status
        [ExitEvent.sense SG_LIB_CAT_MEDIUM_HARD,
         ExitEvent.sense SG_LIB_CAT_NOT_READY] =
      first_nonzero_category
        [ExitEvent.sense SG_LIB_CAT_MEDIUM_HARD,
         ExitEvent.sense SG_LIB_CAT_NOT_READY] ∧
    main_exit_code 0 5 0 = SG_LIB_CAT_OTHER :=
  ⟨exit_status_and_exit_code.2.2.1
      [ExitEvent.sense SG_LIB_CAT_MEDIUM_HARD,
       ExitEvent.sense SG_LIB_CAT_NOT_READY]
      (by decide) (by decide),
   (exit_status_and_exit_code.2.2.2 0 5 0).2.2.1 rfl (by decide) rfl⟩

/- ================================================================== -/
/- C8: the deferred MRQ array.                                         -/
/- ================================================================== -/

/-- Helper: one deferred push keeps the post-state size below `nmrqs` and
moves entries only from `pending` to `submitted`, preserving their
concatenation. -/
theorem sg_start_io_deferred_step (nmrqs e : Nat) (st : MrqSt)
    (hn : 0 < nmrqs) (_hlen : st.pending.length < nmrqs) :
    (sg_start_io_deferred nmrqs e st).pending.length < nmrqs ∧
    (sg_start_io_deferred nmrqs e st).submitted ++
        (sg_start_io_deferred nmrqs e st).pending =
      st.submitted ++ st.pending ++ [e] := by
  rw [sg_start_io_deferred]
  by_cases h : nmrqs ≤ (st.pending ++ [e]).length
  · rw [if_pos h]
    refine ⟨by simpa [sgh_do_deferred_mrq] using hn, ?_⟩
    simp [sgh_do_deferred_mrq]
  · rw [if_neg h]
    refine ⟨?_, by simp⟩
    simp only [List.length_append, List.length_cons, List.length_nil] at h ⊢
    omega

/-- Helper: over any sequence of deferred pushes the size bound and the
conservation equation hold. -/
theorem runMrq_bound_conserve (nmrqs : Nat) (es : List Nat) (st : MrqSt)
    (hn : 0 < nmrqs) (hlen : st.pending.length < nmrqs) :
    (runMrq nmrqs es st).pending.length < nmrqs ∧
    (runMrq nmrqs es st).submitted ++ (runMrq nmrqs es st).pending =
      st.submitted ++ st.pending ++ es := by
  induction es generalizing st with
  | nil => simpa [runMrq] using hlen
  | cons e rest ih =>
    have hstep := sg_start_io_deferred_step nmrqs e st hn hlen
    have hrec := ih (sg_start_io_deferred nmrqs e st) hstep.1
    refine ⟨hrec.1, ?_⟩
    calc (runMrq nmrqs (e :: rest) st).submitted ++
          (runMrq nmrqs (e :: rest) st).pending
        = (runMrq nmrqs rest (sg_start_io_deferred nmrqs e st)).submitted ++
            (runMrq nmrqs rest (sg_start_io_deferred nmrqs e st)).pending :=
          rfl
      _ = (sg_start_io_deferred nmrqs e st).submitted ++
            (sg_start_io_deferred nmrqs e st).pending ++ rest := hrec.2
      _ = st.submitted ++ st.pending ++ [e] ++ rest := by rw [hstep.2]
      _ = st.submitted ++ st.pending ++ (e :: rest) := by simp

/-- C8 counterexample: a worker that leaves its main loop through the
`stop_after_write` break (src/testing/sgh_dd.cpp:1804-1805) with one entry
pending performs no flush — the entry stays in the array, against the
claim that leaving the loop with entries pending always flushes. -/
theorem mrq_tail_flush_counterexample :
    ¬((loop_exit_mrq 2 LoopExit.stopAfterWrite
        { pending := [7], submitted := [] }).pending = []) := by
  decide

/-- C8 amended: with `nmrqs > 0` the deferred array never exceeds `nmrqs`
entries — every push that reaches `nmrqs` flushes at once, and a flush
empties the array while submitting every entry exactly once (so a pending
entry has never been submitted).  The tail flush, however, runs only on the
end-of-count and read-nothing loop exits; the stop-requested and
stop-after-write exits leave pending entries behind. -/
theorem deferred_mrq_invariants :
    (∀ (nmrqs : Nat) (es : List Nat) (st : MrqSt), 0 < nmrqs →
      st.pending.length < nmrqs →
      (runMrq nmrqs es st).pending.length < nmrqs ∧
      (runMrq nmrqs es st).submitted ++ (runMrq nmrqs es st).pending =
        st.submitted ++ st.pending ++ es ∧
      (∀ x ∈ (runMrq nmrqs es st).pending,
        (st.submitted ++ st.pending ++ es).Nodup →
        x ∉ (runMrq nmrqs es st).submitted)) ∧
    (∀ st : MrqSt, (sgh_do_deferred_mrq st).pending = [] ∧
      (sgh_do_deferred_mrq st).submitted = st.submitted ++ st.pending) ∧
    (∀ (nmrqs e : Nat) (st : MrqSt), st.pending.length + 1 = nmrqs →
      (sg_start_io_deferred nmrqs e st).pending = [] ∧
      (sg_start_io_deferred nmrqs e st).submitted =
        st.submitted ++ st.pending ++ [e]) ∧
    (∀ (nmrqs : Nat) (st : MrqSt), 0 < nmrqs →
      (loop_exit_mrq nmrqs LoopExit.endOfCount st).pending = [] ∧
      (loop_exit_mrq nmrqs LoopExit.readNothing st).pending = [] ∧
      loop_exit_mrq nmrqs LoopExit.stopRequested st = st ∧
      loop_exit_mrq nmrqs LoopExit.stopAfterWrite st = st) := by
  refine ⟨?_, ?_, ?_, ?_⟩
  · intro nmrqs es st hn hlen
    have hrun := runMrq_bound_conserve nmrqs es st hn hlen
    refine ⟨hrun.1, hrun.2, ?_⟩
    intro x hx hnodup
    rw [← hrun.2] at hnodup
    intro hxs
    exact (List.disjoint_of_nodup_append hnodup) hxs hx
  · intro st
    exact ⟨rfl, rfl⟩
  · intro nmrqs e st hlen
    rw [sg_start_io_deferred]
    rw [if_pos (by simp; omega)]
    exact ⟨rfl, by simp [sgh_do_deferred_mrq]⟩
  · intro nmrqs st hn
    refine ⟨?_, ?_, rfl, rfl⟩
    · rw [loop_exit_mrq]
      by_cases h : 0 < st.pending.length
      · rw [if_pos ⟨hn, h⟩]
        rfl
      · rw [if_neg (by omega)]
        exact List.length_eq_zero.mp (by omega)
    · rw [loop_exit_mrq]
      by_cases h : 0 < st.pending.length
      · rw [if_pos ⟨hn, h⟩]
        rfl
      · rw [if_neg (by omega)]
        exact List.length_eq_zero.mp (by omega)

/-- Witness for C8 (amended) at `nmrqs = 2` with four fresh entries pushed
from an empty state. -/
theorem deferred_mrq_invariants_witness :
    ((runMrq 2 [10, 11, 12, 13] { pending := [], submitted := []
        }).pending.length < 2 ∧
      (runMrq 2 [10, 11, 12, 13]
          { pending := [], submitted := [] }).submitted ++
        (runMrq 2 [10, 11, 12, 13]
          { pending := [], submitted := [] }).pending =
        ([] : List Nat) ++ [] ++ [10, 11, 12, 13] ∧
      (∀ x ∈ (runMrq 2 [10, 11, 12, 13]
          { pending := [], submitted := [] }).pending,
        (([] : List Nat) ++ [] ++ [10, 11, 12, 13]).Nodup →
        x ∉ (runMrq 2 [10, 11, 12, 13]
          { pending := [], submitted := [] }).submitted)) ∧
    ((sg_start_io_deferred 2 21 { pending := [20], submitted := []
        }).pending = [] ∧
      (sg_start_io_deferred 2 21
          { pending := [20], submitted := [] }).submitted =
        [] ++ [20] ++ [21]) :=
  ⟨deferred_mrq_invariants.1 2 [10, 11, 12, 13]
      { pending := [], submitted := [] } (by norm_num) (by decide),
   deferred_mrq_invariants.2.2.1 2 21
      { pending := [20], submitted := [] } (by decide)⟩

/- ================================================================== -/
/- C9: chkaddr round-trip.                                             -/
/- ================================================================== -/

/-- Helper: the fill loop never touches bytes below its cursor. -/
theorem fill_addr_block_frozen (n pos : Nat) (buf : Nat → Nat)
    (j lim p : Nat) (hn : lim - j ≤ n) (hp : p < j) :
    fill_addr_block pos buf j lim p = buf p := by
  induction n generalizing buf j with
  | zero =>
    rw [fill_addr_block, if_neg (by omega)]
  | succ n ih =>
    rw [fill_addr_block]
    by_cases h : j < lim
    · rw [if_pos h]
      rw [ih (putBe32 pos j buf) (j + 4) (by omega) (by omega)]
      rw [putBe32]
      rw [if_neg (by omega), if_neg (by omega), if_neg (by omega),
        if_neg (by omega)]
    · rw [if_neg h]

/-- Helper: reading back a just-stored 32-bit big-endian value. -/
theorem getBe32_putBe32 (v j : Nat) (buf : Nat → Nat) (hv : v < 2 ^ 32) :
    getBe32 (putBe32 v j buf) j = v := by
  rw [getBe32]
  have h0 : putBe32 v j buf j = v / 2 ^ 24 % 256 := by
    rw [putBe32, if_pos rfl]
  have h1 : putBe32 v j buf (j + 1) = v / 2 ^ 16 % 256 := by
    rw [putBe32, if_neg (by omega), if_pos rfl]
  have h2 : putBe32 v j buf (j + 2) = v / 2 ^ 8 % 256 := by
    rw [putBe32, if_neg (by omega), if_neg (by omega), if_pos rfl]
  have h3 : putBe32 v j buf (j + 3) = v % 256 := by
    rw [putBe32, if_neg (by omega), if_neg (by omega), if_neg (by omega),
      if_pos rfl]
  rw [h0, h1, h2, h3]
  omega

/-- Helper: after the fill loop runs from `j`, every word at a loop-visited
offset reads back the stored address. -/
theorem fill_addr_block_reads (n pos : Nat) (buf : Nat → Nat)
    (j lim i : Nat) (hn : lim - j ≤ n) (hv : pos < 2 ^ 32) (hij : j ≤ i)
    (hmod : (i - j) % 4 = 0) (hi : i < lim) :
    getBe32 (fill_addr_block pos buf j lim) i = pos := by
  induction n generalizing buf j with
  | zero => omega
  | succ n ih =>
    have hjlim : j < lim := by omega
    rw [fill_addr_block, if_pos hjlim]
    rcases eq_or_ne i j with hij' | hij'
    · subst hij'
      have e0 := fill_addr_block_frozen n pos (putBe32 pos i buf)
        (i + 4) lim i (by omega) (by omega)
      have e1 := fill_addr_block_frozen n pos (putBe32 pos i buf)
        (i + 4) lim (i + 1) (by omega) (by omega)
      have e2 := fill_addr_block_frozen n pos (putBe32 pos i buf)
        (i + 4) lim (i + 2) (by omega) (by omega)
      have e3 := fill_addr_block_frozen n pos (putBe32 pos i buf)
        (i + 4) lim (i + 3) (by omega) (by omega)
      rw [getBe32, e0, e1, e2, e3, ← getBe32]
      exact getBe32_putBe32 pos i buf hv
    · exact ih (putBe32 pos j buf) (j + 4) (by omega) (by omega) (by omega)

/-- Helper: the checker accepts when every word it visits reads back the
address. -/
theorem chk_addr_block_of_reads (n addr : Nat) (buf : Nat → Nat)
    (j num : Nat) (hn : num - j ≤ n)
    (h : ∀ i, j ≤ i → i < num → (i - j) % 4 = 0 → getBe32 buf i = addr) :
    chk_addr_block addr buf j num = true := by
  induction n generalizing j with
  | zero =>
    rw [chk_addr_block, if_neg (by omega)]
  | succ n ih =>
    rw [chk_addr_block]
    by_cases hj : j < num
    · rw [if_pos hj]
      have hhead : getBe32 buf j = addr := h j le_rfl hj (by omega)
      rw [hhead]
      simp only [beq_self_eq_true, Bool.true_and]
      exact ih (j + 4) (by omega)
        (fun i hi1 hi2 hi3 => h i (by omega) hi2 (by omega))
    · rw [if_neg hj]

/-- C9: a block produced by the `iflag=00,ff` synthetic filler for block
address `addr` passes the `--chkaddr` scan for `addr`, both in single-word
mode (`chkaddr = 1`, 4 bytes) and in whole-block mode (`bs - 3` bytes),
whatever the buffer held before. -/
theorem chkaddr_roundtrip (bs addr c_addr : Nat) (init : Nat → Nat)
    (hbs : 4 ≤ bs) (haddr : addr < 2 ^ 32) :
    chk_addr_block addr (fill_addr_block addr init 0 (bs - 3)) 0
      (chk_addr_num c_addr bs) = true := by
  apply chk_addr_block_of_reads (chk_addr_num c_addr bs) addr _ 0 _
    (by omega)
  intro i hi0 hinum himod
  have hilt : i < bs - 3 := by
    rcases eq_or_ne c_addr 1 with hc | hc
    · rw [chk_addr_num, if_pos hc] at hinum
      omega
    · rw [chk_addr_num, if_neg hc] at hinum
      exact hinum
  exact fill_addr_block_reads (bs - 3) addr init 0 (bs - 3) i (by omega)
    haddr (by omega) (by omega) hilt

/-- Witness for C9 at `bs = 10`, `addr = 0xdeadbeef`, an all-0x55 initial
buffer, in both checker modes. -/
theorem chkaddr_roundtrip_witness :
    ((4 : Nat) ≤ 10 ∧ (0xdeadbeef : Nat) < 2 ^ 32) ∧
    chk_addr_block 0xdeadbeef
      (fill_addr_block 0xdeadbeef (fun _ => 0x55) 0 (10 - 3)) 0
      (chk_addr_num 1 10) = true ∧
    chk_addr_block 0xdeadbeef
      (fill_addr_block 0xdeadbeef (fun _ => 0x55) 0 (10 - 3)) 0
      (chk_addr_num 0 10) = true :=
  ⟨⟨by norm_num, by norm_num⟩,
   chkaddr_roundtrip 10 0xdeadbeef 1 (fun _ => 0x55) (by norm_num)
     (by norm_num),
   chkaddr_roundtrip 10 0xdeadbeef 0 (fun _ => 0x55) (by norm_num)
     (by norm_num)⟩

/- ================================================================== -/
/- C3 and C4: pack-id allocation lemmas.                               -/
/- ================================================================== -/

/-- Helper: a both-sg write takes `rd_p_id + 1` and leaves the state
alone. -/
theorem assignPackId_wr (e : StartEv) (st : AllocSt) (hw : e.wr = true) :
    assignPackId true e st = (st.rdp e.tid + 1, st) := by
  rw [assignPackId, if_pos rfl, if_pos hw]

/-- Helper: a both-sg read takes `2 * mono`, bumps the counter and records
the id in the caller's `rd_p_id`. -/
theorem assignPackId_rd (e : StartEv) (st : AllocSt) (hw : e.wr = false) :
    assignPackId true e st =
      (2 * st.mono, ⟨st.mono + 1,
        fun w => if w = e.tid then 2 * st.mono else st.rdp w⟩) := by
  rw [assignPackId, if_pos rfl, if_neg (by rw [hw]; exact Bool.false_ne_true)]

/-- Helper: outside both-sg mode every call takes `mono` and bumps it. -/
theorem assignPackId_not_both (e : StartEv) (st : AllocSt) :
    assignPackId false e st = (st.mono, ⟨st.mono + 1, st.rdp⟩) := by
  rw [assignPackId, if_neg (by exact Bool.false_ne_true)]

/-- Helper: the counter never decreases. -/
theorem assignPackId_mono_le (both_sg : Bool) (e : StartEv) (st : AllocSt) :
    st.mono ≤ (assignPackId both_sg e st).2.mono := by
  cases both_sg with
  | false =>
    rw [assignPackId_not_both]
    dsimp only
    omega
  | true =>
    cases hw : e.wr with
    | true => rw [assignPackId_wr e st hw]
    | false =>
      rw [assignPackId_rd e st hw]
      dsimp only
      omega

/-- Helper: `AllocInv` is preserved by every both-sg allocation step. -/
theorem assignPackId_inv (e : StartEv) (st : AllocSt) (h : AllocInv st) :
    AllocInv (assignPackId true e st).2 := by
  obtain ⟨h1, h2, h3⟩ := h
  cases hw : e.wr with
  | true => rw [assignPackId_wr e st hw]; exact ⟨h1, h2, h3⟩
  | false =>
    rw [assignPackId_rd e st hw]
    refine ⟨by dsimp only; omega, ?_, ?_⟩
    · intro w
      dsimp only
      by_cases ht : w = e.tid
      · right
        rw [if_pos ht]
        omega
      · rw [if_neg ht]
        rcases h2 w with h0 | hb
        · exact Or.inl h0
        · exact Or.inr ⟨hb.1, hb.2.1, by omega⟩
    · intro w w' hnz heq
      dsimp only at hnz heq
      by_cases ht : w = e.tid <;> by_cases ht' : w' = e.tid
      · rw [ht, ht']
      · rw [if_pos ht, if_neg ht'] at heq
        rcases h2 w' with h0 | hb
        · rw [h0] at heq
          omega
        · omega
      · rw [if_neg ht, if_pos ht'] at heq
        rw [if_neg ht] at hnz
        rcases h2 w with h0 | hb
        · exact absurd h0 hnz
        · omega
      · rw [if_neg ht, if_neg ht'] at heq
        rw [if_neg ht] at hnz
        exact h3 w w' hnz heq

/-- Helper: classification of every command of a both-sg run: reads carry
their own even id, at least `2 * mono`; writes carry their segment's read
id plus one, the segment id being even and non-zero. -/
theorem runAlloc_cmd_facts (es : List StartEv) (st : AllocSt)
    (hinv : AllocInv st) (hwp : writesPreceded es st) :
    ∀ c ∈ runAlloc true es st,
      (c.wr = false → c.pid = c.seg ∧ c.pid % 2 = 0 ∧ 2 * st.mono ≤ c.pid) ∧
      (c.wr = true → c.pid = c.seg + 1 ∧ c.seg % 2 = 0 ∧ c.seg ≠ 0) := by
  induction es generalizing st with
  | nil =>
    intro c hc
    simp [runAlloc] at hc
  | cons e rest ih =>
    obtain ⟨hwp1, hwp2⟩ := hwp
    intro c hc
    rw [runAlloc] at hc
    rcases List.mem_cons.mp hc with hc | hc
    · subst hc
      by_cases hw : e.wr = true
      · refine ⟨fun hf => ?_, fun _ => ?_⟩
        · dsimp only at hf
          rw [hw] at hf
          exact absurd hf (by simp)
        · dsimp only
          rw [assignPackId_wr e st hw, if_pos hw]
          dsimp only
          have hs := hwp1 hw
          have hfacts := (hinv.2.1 e.tid).resolve_left hs
          exact ⟨rfl, hfacts.1, hs⟩
      · have hw' : e.wr = false := by
          revert hw
          cases e.wr <;> simp
        refine ⟨fun _ => ?_, fun ht => ?_⟩
        · dsimp only
          rw [assignPackId_rd e st hw', if_neg hw]
          dsimp only
          exact ⟨rfl, by omega, le_rfl⟩
        · dsimp only at ht
          exact absurd ht hw
    · have hmono := assignPackId_mono_le true e st
      have hres := ih (assignPackId true e st).2
        (assignPackId_inv e st hinv) hwp2 c hc
      refine ⟨fun hf => ?_, hres.2⟩
      obtain ⟨ha, hb, hcc⟩ := hres.1 hf
      exact ⟨ha, hb, by omega⟩

/-- Helper: a write command whose segment id is already below `2 * mono`
carries the `rd_p_id` value its worker had at the start of the run. -/
theorem runAlloc_seg_stable (es : List StartEv) (st : AllocSt) :
    ∀ c ∈ runAlloc true es st, c.wr = true → c.seg ≠ 0 →
      c.seg < 2 * st.mono → st.rdp c.tid = c.seg := by
  induction es generalizing st with
  | nil =>
    intro c hc
    simp [runAlloc] at hc
  | cons e rest ih =>
    intro c hc hcw hnz hlt
    rw [runAlloc] at hc
    rcases List.mem_cons.mp hc with hc | hc
    · subst hc
      dsimp only at hcw ⊢
      rw [if_pos hcw]
    · have hmono := assignPackId_mono_le true e st
      have hres := ih (assignPackId true e st).2 c hc hcw hnz (by omega)
      cases hw : e.wr with
      | true =>
        rw [assignPackId_wr e st hw] at hres
        exact hres
      | false =>
        rw [assignPackId_rd e st hw] at hres
        dsimp only at hres
        by_cases ht : c.tid = e.tid
        · rw [if_pos ht] at hres
          omega
        · rwa [if_neg ht] at hres

/-- Helper: outside both-sg mode every id of a run is at least the starting
counter value. -/
theorem runAlloc_not_both_lb (es : List StartEv) (st : AllocSt) :
    ∀ c ∈ runAlloc false es st, st.mono ≤ c.pid := by
  induction es generalizing st with
  | nil =>
    intro c hc
    simp [runAlloc] at hc
  | cons e rest ih =>
    intro c hc
    rw [runAlloc] at hc
    rcases List.mem_cons.mp hc with hc | hc
    · subst hc
      dsimp only
      rw [assignPackId_not_both]
    · have hres := ih (assignPackId false e st).2 c hc
      rw [assignPackId_not_both] at hres
      dsimp only at hres
      omega

/-- Helper: outside both-sg mode the ids of a run never repeat. -/
theorem runAlloc_not_both_nodup (es : List StartEv) (st : AllocSt) :
    ((runAlloc false es st).map SubmittedCmd.pid).Nodup := by
  induction es generalizing st with
  | nil => simp [runAlloc]
  | cons e rest ih =>
    rw [runAlloc, List.map_cons, List.nodup_cons]
    refine ⟨?_, ih _⟩
    intro hmem
    obtain ⟨c, hc, hpid⟩ := List.mem_map.mp hmem
    have hlb := runAlloc_not_both_lb rest _ c hc
    rw [assignPackId_not_both] at hlb hpid
    dsimp only at hlb hpid
    omega

/-- Helper: the pairwise collision structure of a both-sg run: two distinct
commands share a pack-id only if both are writes of the same worker against
the same segment. -/
theorem runAlloc_pairwise (es : List StartEv) (st : AllocSt)
    (hinv : AllocInv st) (hwp : writesPreceded es st) :
    List.Pairwise
      (fun a b => a.pid = b.pid →
        (a.wr = true ∧ b.wr = true ∧ a.tid = b.tid ∧ a.seg = b.seg))
      (runAlloc true es st) := by
  induction es generalizing st with
  | nil =>
    rw [runAlloc]
    exact List.Pairwise.nil
  | cons e rest ih =>
    obtain ⟨hwp1, hwp2⟩ := hwp
    rw [runAlloc]
    refine List.Pairwise.cons ?_ (ih _ (assignPackId_inv e st hinv) hwp2)
    intro b hb heq
    dsimp only at heq ⊢
    have hbf := runAlloc_cmd_facts rest _ (assignPackId_inv e st hinv)
      hwp2 b hb
    by_cases hw : e.wr = true
    · have hs := hwp1 hw
      have hfacts := (hinv.2.1 e.tid).resolve_left hs
      rw [assignPackId_wr e st hw] at heq hb
      dsimp only at heq hb
      rw [if_pos hw]
      by_cases hbw : b.wr = true
      · obtain ⟨hb1, hb2, hb3⟩ := hbf.2 hbw
        have hseg : b.seg = st.rdp e.tid := by omega
        have hstab := runAlloc_seg_stable rest st b hb hbw
          (by rw [hseg]; exact hs) (by rw [hseg]; exact hfacts.2.2)
        have htid : b.tid = e.tid := hinv.2.2 b.tid e.tid
          (by rw [hstab, hseg]; exact hs) (by rw [hstab, hseg])
        exact ⟨hw, hbw, htid.symm, hseg.symm⟩
      · have hbw' : b.wr = false := by
          revert hbw
          cases b.wr <;> simp
        obtain ⟨hb1, hb2, hb3⟩ := hbf.1 hbw'
        exact absurd heq (by omega)
    · have hw' : e.wr = false := by
        revert hw
        cases e.wr <;> simp
      rw [assignPackId_rd e st hw'] at heq
      dsimp only at heq
      by_cases hbw : b.wr = true
      · obtain ⟨hb1, hb2, hb3⟩ := hbf.2 hbw
        exact absurd heq (by omega)
      · have hbw' : b.wr = false := by
          revert hbw
          cases b.wr <;> simp
        obtain ⟨hb1, hb2, hb3⟩ := hbf.1 hbw'
        rw [assignPackId_rd e st hw'] at hb3
        dsimp only at hb3
        exact absurd heq (by omega)

/-- Helper: the initial state satisfies the allocator invariant. -/
theorem initAllocSt_inv : AllocInv initAllocSt :=
  ⟨le_refl 1, fun _ => Or.inl rfl, fun _ _ hnz _ => absurd rfl hnz⟩

/-- Helper: the read-side ids of a both-sg run are the consecutive even
numbers `2*mono, 2*(mono+1), …`. -/
theorem runAlloc_reads_pids (es : List StartEv) (st : AllocSt) :
    ((runAlloc true es st).filter (fun c => !c.wr)).map SubmittedCmd.pid =
      (List.range (countReads es)).map (fun j => 2 * (st.mono + j)) := by
  induction es generalizing st with
  | nil => simp [runAlloc, countReads]
  | cons e rest ih =>
    rw [runAlloc, List.filter_cons]
    by_cases hw : e.wr = true
    · rw [if_neg (by simp [hw])]
      have hcount : countReads (e :: rest) = countReads rest := by
        rw [countReads, countReads, List.filter_cons, if_neg (by simp [hw])]
      rw [hcount, assignPackId_wr e st hw]
      exact ih st
    · have hw' : e.wr = false := by
        revert hw
        cases e.wr <;> simp
      have hcount : countReads (e :: rest) = countReads rest + 1 := by
        rw [countReads, countReads, List.filter_cons, if_pos (by simp [hw'])]
        rfl
      rw [assignPackId_rd e st hw']
      dsimp only
      rw [if_pos (by rw [hw']; rfl), List.map_cons]
      dsimp only
      rw [hcount, ih ⟨st.mono + 1, fun w => if w = e.tid then 2 * st.mono
        else st.rdp w⟩]
      dsimp only
      rw [List.range_succ_eq_map, List.map_cons, List.map_map]
      refine congrArg₂ List.cons (by omega) ?_
      refine List.map_congr_left ?_
      intro j _
      simp only [Function.comp_apply]
      omega

/-- Helper: every write of a both-sg run either reuses an `rd_p_id` already
set when the run began, or is paired with a read inside the run that owns
its segment id. -/
theorem runAlloc_write_pairs (es : List StartEv) (st : AllocSt) :
    ∀ c ∈ runAlloc true es st, c.wr = true →
      st.rdp c.tid = c.seg ∨
      ∃ b ∈ runAlloc true es st, b.wr = false ∧ b.tid = c.tid ∧
        b.pid = c.seg := by
  induction es generalizing st with
  | nil =>
    intro c hc
    simp [runAlloc] at hc
  | cons e rest ih =>
    intro c hc hcw
    rw [runAlloc] at hc
    rcases List.mem_cons.mp hc with hc | hc
    · subst hc
      dsimp only at hcw ⊢
      left
      rw [if_pos hcw]
    · rcases ih (assignPackId true e st).2 c hc hcw with hl | hr
      · by_cases hw : e.wr = true
        · rw [assignPackId_wr e st hw] at hl
          exact Or.inl hl
        · have hw' : e.wr = false := by
            revert hw
            cases e.wr <;> simp
          rw [assignPackId_rd e st hw'] at hl
          dsimp only at hl
          by_cases ht : c.tid = e.tid
          · right
            rw [runAlloc]
            refine ⟨_, List.mem_cons_self _ _, ?_, ?_, ?_⟩
            · exact hw'
            · exact ht.symm
            · dsimp only
              rw [assignPackId_rd e st hw']
              dsimp only
              rw [if_pos ht] at hl
              exact hl
          · rw [if_neg ht] at hl
            exact Or.inl hl
      · obtain ⟨b, hbmem, hbw, hbt, hbp⟩ := hr
        exact Or.inr ⟨b, List.mem_cons_of_mem _ hbmem, hbw, hbt, hbp⟩

/- ================================================================== -/
/- C3: pack-id uniqueness.                                             -/
/- ================================================================== -/

/-- C3 counterexample: in both-sg mode a read (pack-id 2) followed by two
write-side commands of the same segment — e.g. the two halves of a split
write — assigns pack-id 3 to both writes, so ids repeat within a run. -/
theorem pack_id_unique_counterexample :
    ¬(((runAlloc true [⟨0, false⟩, ⟨0, true⟩, ⟨0, true⟩] initAllocSt).map
        SubmittedCmd.pid).Nodup) := by
  decide

/-- C3 amended: pack-ids never repeat except that, when both sides are sg,
all write-side commands of one segment (PRE-FETCH, both halves of a split
write, retried writes) share the pack-id `read id + 1`: two distinct
commands carry the same id only if both are writes of the same worker
against the same segment; outside both-sg mode ids never repeat at all. -/
theorem pack_id_repeat_characterisation :
    (∀ es, writesPreceded es initAllocSt →
      List.Pairwise
        (fun a b => a.pid = b.pid →
          (a.wr = true ∧ b.wr = true ∧ a.tid = b.tid ∧ a.seg = b.seg))
        (runAlloc true es initAllocSt)) ∧
    (∀ es st, ((runAlloc false es st).map SubmittedCmd.pid).Nodup) := by
  constructor
  · intro es h
    exact runAlloc_pairwise es initAllocSt initAllocSt_inv h
  · intro es st
    exact runAlloc_not_both_nodup es st

/-- Witness for C3 (amended): two workers each doing a read then a write,
and a non-both-sg run of three commands. -/
theorem pack_id_repeat_characterisation_witness :
    List.Pairwise
      (fun a b => a.pid = b.pid →
        (a.wr = true ∧ b.wr = true ∧ a.tid = b.tid ∧ a.seg = b.seg))
      (runAlloc true [⟨0, false⟩, ⟨0, true⟩, ⟨1, false⟩, ⟨1, true⟩]
        initAllocSt) ∧
    ((runAlloc false [⟨0, false⟩, ⟨0, true⟩, ⟨1, false⟩] initAllocSt).map
      SubmittedCmd.pid).Nodup :=
  ⟨pack_id_repeat_characterisation.1
      [⟨0, false⟩, ⟨0, true⟩, ⟨1, false⟩, ⟨1, true⟩] (by decide),
   pack_id_repeat_characterisation.2
      [⟨0, false⟩, ⟨0, true⟩, ⟨1, false⟩] initAllocSt⟩

/- ================================================================== -/
/- C4: paired even/odd ids.                                            -/
/- ================================================================== -/

/-- C4: in a both-sg run the reads receive, in order, the even pack-ids
`2, 4, 6, …` (the allocator starts at 1), and every write receives its
segment's read pack-id plus one, that read being a read of the same worker
within the run. -/
theorem paired_pack_ids (es : List StartEv)
    (h : writesPreceded es initAllocSt) :
    ((runAlloc true es initAllocSt).filter (fun c => !c.wr)).map
        SubmittedCmd.pid =
      (List.range (countReads es)).map (fun j => 2 * (1 + j)) ∧
    (∀ c ∈ runAlloc true es initAllocSt, c.wr = true →
      c.pid = c.seg + 1 ∧
      ∃ b ∈ runAlloc true es initAllocSt,
        b.wr = false ∧ b.tid = c.tid ∧ b.pid = c.seg) := by
  constructor
  · exact runAlloc_reads_pids es initAllocSt
  · intro c hc hcw
    have hfacts := (runAlloc_cmd_facts es initAllocSt initAllocSt_inv h
      c hc).2 hcw
    refine ⟨hfacts.1, ?_⟩
    rcases runAlloc_write_pairs es initAllocSt c hc hcw with hl | hr
    · have h0 : (0 : Nat) = c.seg := hl
      exact absurd h0.symm hfacts.2.2
    · exact hr

/-- Witness for C4: one worker, read then write; the read takes id 2 and
the write id 3. -/
theorem paired_pack_ids_witness :
    ((runAlloc true [⟨0, false⟩, ⟨0, true⟩] initAllocSt).filter
        (fun c => !c.wr)).map SubmittedCmd.pid =
      (List.range (countReads [⟨0, false⟩, ⟨0, true⟩])).map
        (fun j => 2 * (1 + j)) ∧
    (∀ c ∈ runAlloc true [⟨0, false⟩, ⟨0, true⟩] initAllocSt,
      c.wr = true →
      c.pid = c.seg + 1 ∧
      ∃ b ∈ runAlloc true [⟨0, false⟩, ⟨0, true⟩] initAllocSt,
        b.wr = false ∧ b.tid = c.tid ∧ b.pid = c.seg) :=
  paired_pack_ids [⟨0, false⟩, ⟨0, true⟩] (by decide)

end SghDd
